import Mathlib

/-!
Verification development for the bestbind network-bandwidth benchmark.

The program benchmarks transfer bandwidth across a set of source bindings by
running a real transfer tool (rsync / curl / wget / git) once per binding and
per pass, bounding each run with a poll-based timeout loop, terminating
runaway runs with tool-specific signal escalation, and aggregating the
per-pass bandwidth samples with a trimmed mean.

This file shallowly embeds the relevant parts of the source:
- `get_program_args` (src/format/mod.rs) and the spawn specification built by
  `get_child` (src/format/ip.rs);
- the size measurement and bandwidth computation of `main` (src/main.rs),
  with the filesystem abstracted as a tree of nodes;
- the per-run status classification of `main` (src/main.rs);
- IEEE double arithmetic abstracted as exact rational arithmetic extended
  with NaN and signed infinities (rounding is not modelled; every value this
  development evaluates is exactly representable);
- the pass/binding orchestrator loop of `main`, with the outcome of each
  spawned run supplied by an oracle;
- the bounded-wait poll loop `wait_timeout` (src/format/ip.rs and
  src/format/mod.rs share the same loop structure, differing only in the
  termination routine invoked, which is abstracted as an event here);
- the termination escalation `kill_children` (src/format/ip.rs) and the
  Docker variant (src/format/docker.rs), as traces of signalling actions.
-/

/-- The transfer tool, mirroring `enum Program` in src/main.rs. -/
inductive Program where
  | rsync
  | wget
  | curl
  | git
deriving DecidableEq

/-- Argument vector built for the transfer tool, mirroring `get_program_args`
in src/format/mod.rs.  `tmp` is the scratch path already rendered as a
string; `bind_ip` is the optional binding address. -/
def get_program_args (program : Program) (extra : List String) (upstream : String)
    (tmp : String) (bind_ip : Option String) : List String :=
  match program with
  | .rsync =>
    ["-vP", "-rLptgoD", "--inplace"]
      ++ (match bind_ip with
          | some ip => ["--address", ip]
          | none => [])
      ++ [upstream, tmp] ++ extra
  | .curl =>
    ["-o", tmp]
      ++ (match bind_ip with
          | some ip => ["--interface", ip]
          | none => [])
      ++ [upstream] ++ extra
  | .wget =>
    ["-O", tmp]
      ++ (match bind_ip with
          | some ip => ["--bind-address", ip]
          | none => [])
      ++ [upstream] ++ extra
  | .git =>
    ["clone", "--bare", upstream, tmp]

/-- Program name plus argument vector plus extra environment variables of a
spawned child, abstracting the `std::process::Command` built by `get_child`
in src/format/ip.rs (stdio redirection and process-group placement are not
modelled). -/
structure SpawnSpec where
  exe : String
  argv : List String
  env : List (String × String)
deriving DecidableEq

/-- Mirrors `get_child` in src/format/ip.rs: the command built for one run in
the Local-Bind (IP) strategy.  `extra` stands for the already shlex-split
extra arguments and `binder` for the resolved libbinder.so path. -/
def get_child (program : Program) (bind_ip : String) (upstream : String)
    (tmp : String) (binder : String) (extra : List String) : SpawnSpec :=
  match program with
  | .rsync =>
    { exe := "rsync"
      argv := ["-vP", "-rLptgoD", "--inplace", "--address", bind_ip, upstream, tmp] ++ extra
      env := [] }
  | .curl =>
    { exe := "curl"
      argv := ["-o", tmp, "--interface", bind_ip, upstream] ++ extra
      env := [] }
  | .wget =>
    { exe := "wget"
      argv := ["-O", tmp, "--bind-address", bind_ip, upstream] ++ extra
      env := [] }
  | .git =>
    { exe := "git"
      argv := ["clone", "--bare", upstream, tmp]
      env := [("LD_PRELOAD", binder), ("BIND_ADDRESS", bind_ip)] }

/-- A filesystem node: either a regular file with its length, or a directory
whose own metadata length (the inode size returned by `metadata().len()`) is
`selfLen` and whose entries are `children`. -/
inductive FsNode where
  | file (len : Nat)
  | dir (selfLen : Nat) (children : List FsNode)

/-- Result of `std::fs::Metadata::len()` on the node's path: a file's length,
or a directory's own inode size (not the size of its contents). -/
def metadataLen : FsNode → Nat
  | .file n => n
  | .dir s _ => s

mutual

/-- Mirrors `fs_extra::dir::get_size`: a file contributes its length; a
directory contributes the recursive total of its entries (directories
themselves contribute nothing beyond their entries). -/
def fsExtraGetSize : FsNode → Nat
  | .file n => n
  | .dir _ cs => fsExtraGetSizeList cs

/-- Recursive total size of a list of directory entries. -/
def fsExtraGetSizeList : List FsNode → Nat
  | [] => 0
  | c :: rest => fsExtraGetSize c + fsExtraGetSizeList rest

end

/-- Mirrors the size measurement in src/main.rs lines 317-321: for git the
program reads `tmp_file.metadata().unwrap().len()`, otherwise it calls
`fs_extra::dir::get_size(&tmp_file)`. -/
def measuredSize (program : Program) (node : FsNode) : Nat :=
  if program = .git then metadataLen node else fsExtraGetSize node

/-- The size measurement the specification describes: the single file's size
for non-clone kinds, and the recursive directory size for the clone-style
kind. -/
def specMeasuredSize (program : Program) (node : FsNode) : Nat :=
  if program = .git then fsExtraGetSize node else metadataLen node

/-- Classification of one finished run, mirroring the `state_str` match in
src/main.rs lines 296-312. -/
inductive RunState where
  | expectedTimeout
  | ok
  | failed (code : Int)
  | signalKilled
deriving DecidableEq

/-- Mirrors src/main.rs lines 296-312: a run is an expected timeout exactly
when `duration_seconds > timeout`; otherwise exit code 0 is OK, a nonzero
exit code is a failure, and a missing code means death by signal. -/
def classifyRun (timeoutSecs : Nat) (durationSeconds : ℚ) (code : Option Int) : RunState :=
  if (timeoutSecs : ℚ) < durationSeconds then .expectedTimeout
  else
    match code with
    | some c => if c = 0 then .ok else .failed c
    | none => .signalKilled

example : get_program_args .git ["--depth", "1"] "u" "t" (some "1.2.3.4")
    = ["clone", "--bare", "u", "t"] := by decide
example : measuredSize .git (.dir 4096 [.file 1000000]) = 4096 := by decide
example : classifyRun 30 30 (some 1) = .failed 1 := by decide
example : classifyRun 30 (61/2) (some 1) = .expectedTimeout := by
  norm_num [classifyRun]

/-- IEEE double value abstracted exactly: NaN, a signed infinity, or an exact
rational (rounding is not modelled; signed zero is collapsed to `num 0`). -/
inductive F64 where
  | nan
  | inf (pos : Bool)
  | num (q : ℚ)
deriving DecidableEq

/-- Largest finite IEEE double, the value of `f64::MAX`. -/
def f64MAX : ℚ := 2 ^ 1024 - 2 ^ 971

/-- Addition on abstracted doubles (NaN propagates; opposite infinities give
NaN). -/
def F64.add : F64 → F64 → F64
  | .nan, _ => .nan
  | _, .nan => .nan
  | .inf p, .inf q => if p = q then .inf p else .nan
  | .inf p, .num _ => .inf p
  | .num _, .inf p => .inf p
  | .num a, .num b => .num (a + b)

/-- Subtraction on abstracted doubles. -/
def F64.sub : F64 → F64 → F64
  | .nan, _ => .nan
  | _, .nan => .nan
  | .inf p, .inf q => if p = q then .nan else .inf p
  | .inf p, .num _ => .inf p
  | .num _, .inf p => .inf !p
  | .num a, .num b => .num (a - b)

/-- Rust `f64::min`: a NaN operand is ignored unless both are NaN. -/
def F64.fmin : F64 → F64 → F64
  | .nan, y => y
  | x, .nan => x
  | .inf p, .inf q => .inf (p && q)
  | .inf p, .num b => if p then .num b else .inf false
  | .num a, .inf p => if p then .num a else .inf false
  | .num a, .num b => .num (min a b)

/-- Rust `f64::max`: a NaN operand is ignored unless both are NaN. -/
def F64.fmax : F64 → F64 → F64
  | .nan, y => y
  | x, .nan => x
  | .inf p, .inf q => .inf (p || q)
  | .inf p, .num b => if p then .inf true else .num b
  | .num a, .inf p => if p then .inf true else .num a
  | .num a, .num b => .num (max a b)

/-- Division on abstracted doubles.  `0 / 0` is NaN and `a / 0` for `a ≠ 0`
is an infinity whose sign follows `a` (signed zero is not modelled). -/
def F64.div : F64 → F64 → F64
  | .nan, _ => .nan
  | _, .nan => .nan
  | .inf _, .inf _ => .nan
  | .inf p, .num b => if b < 0 then .inf !p else .inf p
  | .num _, .inf _ => .num 0
  | .num a, .num b =>
    if b = 0 then (if a = 0 then .nan else .inf (decide (0 < a)))
    else .num (a / b)

/-- Whether the abstracted double is NaN. -/
def F64.isNan : F64 → Bool
  | .nan => true
  | _ => false

/-- Mirrors the aggregation in src/main.rs lines 333-352 for one binding:
fold the samples into a running sum, a minimum seeded with `f64::MAX` and a
maximum seeded with `f64::MIN`; with at least 3 passes drop the minimum and
the maximum and divide by `pass - 2` (usize subtraction), otherwise divide
the plain sum by `pass`. -/
def calcResultF (pass : Nat) (samples : List F64) : F64 :=
  let sum := samples.foldl F64.add (.num 0)
  let vmin := samples.foldl F64.fmin (.num f64MAX)
  let vmax := samples.foldl F64.fmax (.num (-f64MAX))
  if 3 ≤ pass then
    F64.div (F64.sub sum (F64.add vmin vmax)) (.num ((pass - 2 : Nat) : ℚ))
  else
    F64.div sum (.num (pass : ℚ))

/-- Minimum of a list of rationals as the specification reads it (0 for the
empty list, which never occurs in its uses). -/
def sampleMin : List ℚ → ℚ
  | [] => 0
  | x :: xs => xs.foldl min x

/-- Maximum of a list of rationals as the specification reads it. -/
def sampleMax : List ℚ → ℚ
  | [] => 0
  | x :: xs => xs.foldl max x

/-- Mirrors the final ranking's `sort_by(|a, b| b.2.partial_cmp(&a.2).unwrap())`
in src/main.rs line 355: sorting at least two scores forces the comparator to
run, and `partial_cmp` on a NaN operand returns `None`, so the `unwrap`
panics exactly when at least two scores are to be sorted and one of them is
NaN. -/
def rankPanics (scores : List F64) : Bool :=
  decide (2 ≤ scores.length) && scores.any F64.isNan

/-- One binding under test, mirroring `struct Target` in src/main.rs. -/
structure Target where
  network : String
  comment : String
deriving DecidableEq

/-- What one spawned run did, as observed by the orchestrator: the exit code
reported by `wait_timeout` (`none` meaning death by signal), the elapsed
wall-clock seconds, and the scratch file or directory left behind.  This is
the oracle input to the orchestrator model; spawning and waiting themselves
are modelled separately. -/
structure RunOutcome where
  exitCode : Option Int
  durationSeconds : ℚ
  produced : FsNode

/-- Bandwidth recorded for one run, mirroring src/main.rs lines 317-323:
measured size divided by elapsed seconds, then divided by 1024 to give
KB/s. -/
def runBandwidth (program : Program) (r : RunOutcome) : F64 :=
  F64.div (F64.div (.num ((measuredSize program r.produced : Nat) : ℚ))
      (.num r.durationSeconds))
    (.num 1024)

/-- Observable step of the orchestrator loop: a transfer process was started
for (pass, binding index), or the aggregation over all completed passes
ran. -/
inductive BenchEvent where
  | runStarted (pass : Nat) (idx : Nat)
  | aggregated
deriving DecidableEq

/-- Inner loop of src/main.rs lines 278-329 over the binding indices of one
pass: at the start of each iteration the cancellation flag is read
(`termAt p i`); if set the whole benchmark returns early (`none`), otherwise
the run is started and its bandwidth sample appended. -/
def innerLoop (termAt : Nat → Nat → Bool) (sample : Nat → Nat → F64) (p : Nat) :
    List Nat → Option (List F64) × List BenchEvent
  | [] => (some [], [])
  | i :: rest =>
    if termAt p i then (none, [])
    else
      let r := innerLoop termAt sample p rest
      (r.1.map (fun vs => sample p i :: vs), .runStarted p i :: r.2)

/-- Outer loop of src/main.rs lines 275-331 over the passes: each completed
pass appends its row of samples; an early return from the inner loop aborts
everything. -/
def outerLoop (termAt : Nat → Nat → Bool) (sample : Nat → Nat → F64) (numTargets : Nat) :
    List Nat → Option (List (List F64)) × List BenchEvent
  | [] => (some [], [])
  | p :: rest =>
    let row := innerLoop termAt sample p (List.range numTargets)
    match row.1 with
    | none => (none, row.2)
    | some vals =>
      let r := outerLoop termAt sample numTargets rest
      (r.1.map (fun m => vals :: m), row.2 ++ r.2)

/-- Mirrors the aggregation loop in src/main.rs lines 333-352: for each
binding index `i` (the code iterates `uses.iter().enumerate()`), combine
column `i` of the results matrix with `calcResultF` and pair it with binding
`i`.  The `pass[i]` indexing never fails in the program; here out-of-range
reads are given harmless defaults. -/
def aggregate (passCount : Nat) (targets : List Target) (results : List (List F64)) :
    List (Target × F64) :=
  (List.range targets.length).map fun i =>
    (targets.getD i { network := "", comment := "" },
     calcResultF passCount (results.map fun row => row.getD i F64.nan))

/-- Terminal state of the benchmark: stopped early on the cancellation flag
(results discarded, no aggregation), or completed with aggregated scores. -/
inductive BenchOutcome where
  | terminated
  | completed (calculated : List (Target × F64))

/-- The orchestrator of src/main.rs lines 274-352: run `passCount` passes
over the bindings, checking the cancellation flag at the start of every
binding iteration; on an observed flag return without aggregating, otherwise
aggregate every column.  `oracle p i` describes what run (p, i) did. -/
def bench (program : Program) (passCount : Nat) (targets : List Target)
    (termAt : Nat → Nat → Bool) (oracle : Nat → Nat → RunOutcome) :
    BenchOutcome × List BenchEvent :=
  let sample := fun p i => runBandwidth program (oracle p i)
  let r := outerLoop termAt sample targets.length (List.range passCount)
  match r.1 with
  | none => (.terminated, r.2)
  | some results => (.completed (aggregate passCount targets results), r.2 ++ [.aggregated])

example : calcResultF 2 ([10, 20].map F64.num) = F64.num 15 := by
  norm_num [calcResultF, F64.add, F64.fmin, F64.fmax, F64.div, f64MAX]

/-- Environment of one bounded wait, in integral milliseconds: the instant
the child exits on its own (`try_wait` returns a status exactly from then
on), the status it exits with, the cancellation flag as read at each
instant, and the deadline (start plus timeout). -/
structure WaitCfg where
  exitTime : Nat
  exitStatus : Int
  termAt : Nat → Bool
  deadline : Nat

/-- Observable step of the bounded-wait loop: a non-blocking poll that found
the child still running, a poll that found it exited, or the invocation of
the termination routine (`kill_children`), each stamped with the elapsed
time at which it happened. -/
inductive WaitEvent where
  | polledRunning (t : Nat)
  | polledExited (t : Nat)
  | killed (t : Nat)
deriving DecidableEq

/-- Result of the bounded wait. -/
inductive WaitOutcome where
  | naturallyExited (status : Int) (elapsed : Nat)
  | forcefullyTerminated (elapsed : Nat)
  | fuelExhausted
deriving DecidableEq

/-- The poll loop shared by `IPFormatHandle::wait_timeout` (src/format/ip.rs
lines 229-260) and `wait_timeout` (src/format/mod.rs lines 120-148): poll
`try_wait`; if exited return the status and the elapsed time; otherwise if
the cancellation flag is set, or the deadline has passed, record the elapsed
time, invoke the termination routine and return; otherwise sleep
`min(delay, remaining)` and double `delay` up to the 100 ms ceiling.  Time
advances only across the sleep; `fuel` bounds the number of iterations (the
real loop is unbounded). -/
def waitLoop (cfg : WaitCfg) : Nat → Nat → Nat → WaitOutcome × List WaitEvent
  | 0, _, _ => (.fuelExhausted, [])
  | fuel + 1, now, delay =>
    if cfg.exitTime ≤ now then
      (.naturallyExited cfg.exitStatus now, [.polledExited now])
    else if cfg.termAt now then
      (.forcefullyTerminated now, [.polledRunning now, .killed now])
    else if cfg.deadline ≤ now then
      (.forcefullyTerminated now, [.polledRunning now, .killed now])
    else
      let r := waitLoop cfg fuel (now + min delay (cfg.deadline - now)) (min (delay * 2) 100)
      (r.1, .polledRunning now :: r.2)

/-- The bounded wait started at elapsed time 0 with the initial 1 ms
backoff. -/
def wait_timeout (cfg : WaitCfg) (fuel : Nat) : WaitOutcome × List WaitEvent :=
  waitLoop cfg fuel 0 1

/-- Every termination in the trace is immediately preceded by a non-blocking
poll, at the same instant, that found the child still running: the trace
does not begin with a `killed` event, and whatever directly precedes a
`killed t` event is `polledRunning t`. -/
def killsGuarded (tr : List WaitEvent) : Prop :=
  (∀ t, tr.head? ≠ some (.killed t)) ∧
  ∀ i t, tr[i + 1]? = some (.killed t) → tr[i]? = some (.polledRunning t)

example : wait_timeout ⟨3, 0, fun _ => false, 10⟩ 12
    = (.naturallyExited 0 3, [.polledRunning 0, .polledRunning 1, .polledExited 3]) := by
  decide

example : wait_timeout ⟨50, 0, fun _ => false, 4⟩ 12
    = (.forcefullyTerminated 4,
       [.polledRunning 0, .polledRunning 1, .polledRunning 3, .polledRunning 4, .killed 4]) := by
  decide

/-- Observable step of the Local-Bind termination routine `kill_children`
(src/format/ip.rs lines 145-203). -/
inductive KillEvent where
  | sigtermPid
  | sigkillPid
  | sigkillGroup
  | tryWaitPoll (k : Nat)
  | blockingWait
  | reapNonblocking
deriving DecidableEq

/-- The grace loop of `kill_children`: up to `remaining` further non-blocking
`try_wait` polls starting at attempt index `k` (the real loop sleeps 100 ms
between polls; sleeps are untimed here).  `pollStatus k` is what the k-th
poll reports. -/
def gracePoll (pollStatus : Nat → Option Int) : Nat → Nat → Option Int × List KillEvent
  | _, 0 => (none, [])
  | k, r + 1 =>
    match pollStatus k with
    | some s => (some s, [.tryWaitPoll k])
    | none =>
      let rec' := gracePoll pollStatus (k + 1) r
      (rec'.1, .tryWaitPoll k :: rec'.2)

namespace IPFormat

/-- Mirrors `kill_children` in src/format/ip.rs lines 145-203: for every tool
but git, SIGTERM the primary process only; for git, SIGKILL the whole
process group at once.  Then poll `try_wait` up to 50 times; if the child
never showed up as exited, SIGKILL the primary process and block in
`wait()` (whose status is `blockingWaitStatus`).  Finally reap terminated
descendants without blocking and return the collected status. -/
def kill_children (program : Program) (pollStatus : Nat → Option Int)
    (blockingWaitStatus : Int) : Int × List KillEvent :=
  let first : List KillEvent :=
    if program ≠ .git then [.sigtermPid] else [.sigkillGroup]
  let polls := gracePoll pollStatus 0 50
  match polls.1 with
  | some s => (s, first ++ polls.2 ++ [.reapNonblocking])
  | none =>
    (blockingWaitStatus, first ++ polls.2 ++ [.sigkillPid, .blockingWait, .reapNonblocking])

end IPFormat

/-- Observable step of the Isolated-Network termination routine and run
construction (src/format/docker.rs). -/
inductive DockerEvent where
  | sigkillChild
  | blockingWaitChild
  | dockerKill (name : String)
deriving DecidableEq

namespace DockerFormat

/-- Container name generated per run in `DockerFormatRunner::run`
(src/format/docker.rs lines 73-80): the fixed prefix followed by 16 random
alphanumeric characters, abstracted as `seed`. -/
def ctrName (seed : String) : String :=
  "bestbind-" ++ seed

/-- Argument vector of the `docker run` invocation built by
`DockerFormatRunner::run` (src/format/docker.rs lines 82-93). -/
def dockerRunArgs (name target tmp image progName : String) (progArgs : List String) :
    List String :=
  ["run", "--name", name, "--rm", "--network", target, "-v", tmp ++ ":" ++ tmp, image, progName]
    ++ progArgs

/-- Mirrors `DockerFormatHandle::kill_children` (src/format/docker.rs lines
40-61): SIGKILL the local supervising process, block until it is reaped,
then ask the container runtime to kill the container by its recorded name;
if that command reports failure the `assert!` panics (modelled as `.error`),
otherwise the routine returns the synthetic status `128 + SIGKILL = 137`. -/
def kill_children (name : String) (dockerKillSucceeds : Bool) :
    List DockerEvent × Except String Int :=
  ([.sigkillChild, .blockingWaitChild, .dockerKill name],
   if dockerKillSucceeds then .ok (128 + 9)
   else .error "assertion failed: could not kill docker container")

end DockerFormat

example : (IPFormat.kill_children .rsync (fun _ => none) 143).2
    = [.sigtermPid] ++ (List.range 50).map .tryWaitPoll
      ++ [.sigkillPid, .blockingWait, .reapNonblocking] := by decide

example : IPFormat.kill_children .git (fun k => if k = 2 then some 137 else none) 0
    = (137, [.sigkillGroup, .tryWaitPoll 0, .tryWaitPoll 1, .tryWaitPoll 2,
             .reapNonblocking]) := by decide

/-- With the cancellation flag clear throughout one pass, the inner loop
starts one run per binding index, in order, and collects one sample per
binding index, in order. -/
theorem innerLoop_clear (termAt : Nat → Nat → Bool) (sample : Nat → Nat → F64) (p : Nat)
    (idxs : List Nat) (h : ∀ i ∈ idxs, termAt p i = false) :
    innerLoop termAt sample p idxs
      = (some (idxs.map (sample p)), idxs.map (BenchEvent.runStarted p)) := by
  induction idxs with
  | nil => rfl
  | cons i rest ih =>
    have hi : termAt p i = false := h i (List.mem_cons_self i rest)
    have hrest := ih fun j hj => h j (List.mem_cons_of_mem i hj)
    simp [innerLoop, hi, hrest]

/-- If the flag is observed set at binding index `i₀` (and was clear at every
earlier index of the pass), the inner loop aborts, having started exactly
the runs before `i₀`. -/
theorem innerLoop_term (termAt : Nat → Nat → Bool) (sample : Nat → Nat → F64) (p : Nat)
    (pre : List Nat) (i₀ : Nat) (post : List Nat)
    (hpre : ∀ i ∈ pre, termAt p i = false) (hi : termAt p i₀ = true) :
    innerLoop termAt sample p (pre ++ i₀ :: post)
      = (none, pre.map (BenchEvent.runStarted p)) := by
  induction pre with
  | nil => simp [innerLoop, hi]
  | cons j rest ih =>
    have hj : termAt p j = false := hpre j (List.mem_cons_self j rest)
    have hrest := ih fun i hi' => hpre i (List.mem_cons_of_mem j hi')
    simp [innerLoop, hj, hrest]

/-- With the cancellation flag clear throughout, the outer loop completes
every listed pass, producing one full row of samples per pass in order. -/
theorem outerLoop_clear (termAt : Nat → Nat → Bool) (sample : Nat → Nat → F64)
    (numTargets : Nat) (passes : List Nat)
    (h : ∀ p ∈ passes, ∀ i, i < numTargets → termAt p i = false) :
    outerLoop termAt sample numTargets passes
      = (some (passes.map fun p => (List.range numTargets).map (sample p)),
         (passes.map fun p =>
           (List.range numTargets).map (BenchEvent.runStarted p)).flatten) := by
  induction passes with
  | nil => rfl
  | cons p rest ih =>
    have hrow := innerLoop_clear termAt sample p (List.range numTargets)
      fun i hi => h p (List.mem_cons_self p rest) i (List.mem_range.mp hi)
    have hrest := ih fun q hq i hi => h q (List.mem_cons_of_mem p hq) i hi
    simp [outerLoop, hrow, hrest]

/-- If some pass `p₀` aborts in its inner loop (after `pre` fully completed
passes), the whole benchmark loop aborts with the events of the completed
passes followed by the partial pass's events. -/
theorem outerLoop_term (termAt : Nat → Nat → Bool) (sample : Nat → Nat → F64)
    (numTargets : Nat) (pre : List Nat) (p₀ : Nat) (post : List Nat) (ev₀ : List BenchEvent)
    (hpre : ∀ p ∈ pre, ∀ i, i < numTargets → termAt p i = false)
    (hrow : innerLoop termAt sample p₀ (List.range numTargets) = (none, ev₀)) :
    outerLoop termAt sample numTargets (pre ++ p₀ :: post)
      = (none,
         (pre.map fun p =>
           (List.range numTargets).map (BenchEvent.runStarted p)).flatten ++ ev₀) := by
  induction pre with
  | nil => simp [outerLoop, hrow]
  | cons q rest ih =>
    have hq := innerLoop_clear termAt sample q (List.range numTargets)
      fun i hi => hpre q (List.mem_cons_self q rest) i (List.mem_range.mp hi)
    have hrest := ih fun r hr i hi => hpre r (List.mem_cons_of_mem q hr) i hi
    simp [outerLoop, hq, hrest]

/-- Splitting `List.range n` at a position `k < n`. -/
theorem range_split (k n : Nat) (h : k < n) :
    List.range n = List.range k ++ k :: List.range' (k + 1) (n - k - 1) := by
  have h1 : List.range n = List.range' 0 n := List.range_eq_range' n
  have h2 : List.range' 0 k ++ List.range' k (n - k) = List.range' 0 n := by
    have := List.range'_append 0 k (n - k) 1
    simpa [Nat.sub_add_cancel (Nat.le_of_lt h)] using this
  have h3 : List.range' k (n - k) = k :: List.range' (k + 1) (n - k - 1) := by
    have hk : n - k = (n - k - 1) + 1 := by omega
    conv_lhs => rw [hk]
    exact List.range'_succ k (n - k - 1) 1
  rw [h1, ← h2, h3, ← List.range_eq_range']

/-- Aggregating a fully completed results matrix pairs binding `i` with the
trimmed-mean of exactly the column of samples produced for binding `i`. -/
theorem aggregate_matrix (passCount : Nat) (targets : List Target) (sample : Nat → Nat → F64) :
    aggregate passCount targets
        ((List.range passCount).map fun p => (List.range targets.length).map (sample p))
      = (List.range targets.length).map fun i =>
          (targets.getD i ⟨"", ""⟩,
           calcResultF passCount ((List.range passCount).map fun p => sample p i)) := by
  unfold aggregate
  refine List.map_congr_left fun i hi => ?_
  have hi' : i < targets.length := List.mem_range.mp hi
  have hcol : ((List.range passCount).map fun p =>
        (List.range targets.length).map (sample p)).map (fun row => row.getD i F64.nan)
      = (List.range passCount).map fun p => sample p i := by
    rw [List.map_map]
    refine List.map_congr_left fun p _ => ?_
    simp [Function.comp, List.getD_eq_getElem?_getD, List.getElem?_map,
      List.getElem?_range hi']
  rw [hcol]

/-- With the cancellation flag clear throughout, the benchmark completes:
every run starts in pass-major, declared-binding order, and aggregation
pairs binding `i` with the trimmed mean of its own column of samples. -/
theorem bench_all_clear (program : Program) (passCount : Nat)
    (targets : List Target) (termAt : Nat → Nat → Bool) (oracle : Nat → Nat → RunOutcome)
    (hterm : ∀ p i, termAt p i = false) :
    bench program passCount targets termAt oracle
      = (.completed ((List.range targets.length).map fun i =>
            (targets.getD i ⟨"", ""⟩,
             calcResultF passCount ((List.range passCount).map fun p =>
               runBandwidth program (oracle p i)))),
         ((List.range passCount).map fun p =>
             (List.range targets.length).map (BenchEvent.runStarted p)).flatten
           ++ [.aggregated]) := by
  have hclear := outerLoop_clear termAt (fun p i => runBandwidth program (oracle p i))
    targets.length (List.range passCount) (fun p _ i _ => hterm p i)
  simp only [bench, hclear]
  rw [aggregate_matrix]

/-- The set and order of bindings is fixed before the first pass (`targets`
is read once, before the loop); with no cancellation, every pass completes
and appends exactly one sample per binding, in declared binding order, and
aggregation consumes column `i` of the retained passes paired with binding
`i`.  Claim C8. -/
theorem c8_binding_order_invariant (program : Program) (passCount : Nat)
    (targets : List Target) (termAt : Nat → Nat → Bool) (oracle : Nat → Nat → RunOutcome)
    (hterm : ∀ p i, termAt p i = false) :
    (outerLoop termAt (fun p i => runBandwidth program (oracle p i)) targets.length
        (List.range passCount)).1
      = some ((List.range passCount).map fun p =>
          (List.range targets.length).map fun i => runBandwidth program (oracle p i)) ∧
    ((List.range passCount).map fun p =>
        (List.range targets.length).map fun i => runBandwidth program (oracle p i)).length
      = passCount ∧
    (∀ row ∈ (List.range passCount).map fun p =>
        (List.range targets.length).map fun i => runBandwidth program (oracle p i),
      row.length = targets.length) ∧
    bench program passCount targets termAt oracle
      = (.completed ((List.range targets.length).map fun i =>
            (targets.getD i ⟨"", ""⟩,
             calcResultF passCount ((List.range passCount).map fun p =>
               runBandwidth program (oracle p i)))),
         ((List.range passCount).map fun p =>
             (List.range targets.length).map (BenchEvent.runStarted p)).flatten
           ++ [.aggregated]) := by
  have hclear := outerLoop_clear termAt (fun p i => runBandwidth program (oracle p i))
    targets.length (List.range passCount) (fun p _ i _ => hterm p i)
  exact ⟨by rw [hclear], by simp, by simp,
    bench_all_clear program passCount targets termAt oracle hterm⟩

/-- Closed witness for `c8_binding_order_invariant`. -/
theorem c8_binding_order_invariant_witness :
    bench .curl 1 [⟨"10.0.0.1", "a"⟩, ⟨"10.0.0.2", "b"⟩] (fun _ _ => false)
        (fun _ _ => ⟨some 0, 1, .file 2048⟩)
      = (.completed [(⟨"10.0.0.1", "a"⟩, F64.num 2), (⟨"10.0.0.2", "b"⟩, F64.num 2)],
         [.runStarted 0 0, .runStarted 0 1, .aggregated]) := by
  have h := (c8_binding_order_invariant .curl 1 [⟨"10.0.0.1", "a"⟩, ⟨"10.0.0.2", "b"⟩]
    (fun _ _ => false) (fun _ _ => ⟨some 0, 1, .file 2048⟩) (fun _ _ => rfl)).2.2.2
  rw [h]
  norm_num [calcResultF, runBandwidth, measuredSize, fsExtraGetSize, F64.add, F64.fmin,
    F64.fmax, F64.div, f64MAX, List.range_succ]
  rw [if_neg (by decide : ¬Program.curl = Program.git)]
  norm_num

/-- The cancellation flag is read at the start of every binding iteration of
every pass (this is the only read that steers the loop); the first iteration
that observes it set starts no run, returns from `main` at once, and the
aggregation never runs: exactly the runs of iterations strictly before the
observing one were started.  Claim C6. -/
theorem c6_cancellation_halts (program : Program) (passCount : Nat) (targets : List Target)
    (termAt : Nat → Nat → Bool) (oracle : Nat → Nat → RunOutcome) (p₀ i₀ : Nat)
    (hp : p₀ < passCount) (hi : i₀ < targets.length) (hset : termAt p₀ i₀ = true)
    (hclear₁ : ∀ p i, p < p₀ → i < targets.length → termAt p i = false)
    (hclear₂ : ∀ i, i < i₀ → termAt p₀ i = false) :
    (bench program passCount targets termAt oracle).1 = .terminated ∧
    BenchEvent.aggregated ∉ (bench program passCount targets termAt oracle).2 ∧
    (∀ p i, BenchEvent.runStarted p i ∈ (bench program passCount targets termAt oracle).2 ↔
      (p < p₀ ∧ i < targets.length) ∨ (p = p₀ ∧ i < i₀)) := by
  have hrow : innerLoop termAt (fun p i => runBandwidth program (oracle p i)) p₀
      (List.range targets.length)
      = (none, (List.range i₀).map (BenchEvent.runStarted p₀)) := by
    rw [range_split i₀ targets.length hi]
    exact innerLoop_term _ _ _ _ _ _ (fun i hi' => hclear₂ i (List.mem_range.mp hi')) hset
  have houter : outerLoop termAt (fun p i => runBandwidth program (oracle p i))
      targets.length (List.range passCount)
      = (none,
         ((List.range p₀).map fun p =>
           (List.range targets.length).map (BenchEvent.runStarted p)).flatten
           ++ (List.range i₀).map (BenchEvent.runStarted p₀)) := by
    rw [range_split p₀ passCount hp]
    exact outerLoop_term _ _ _ _ _ _ _
      (fun p hp' i hi' => hclear₁ p i (List.mem_range.mp hp') hi') hrow
  refine ⟨?_, ?_, ?_⟩
  · simp [bench, houter]
  · simp [bench, houter, List.mem_append, List.mem_flatten, List.mem_map]
  · intro p i
    simp only [bench, houter, List.mem_append, List.mem_flatten, List.mem_map,
      List.mem_range]
    constructor
    · rintro (⟨l, ⟨q, hq, rfl⟩, hmem⟩ | ⟨j, hj, hji⟩)
      · rcases List.mem_map.mp hmem with ⟨j, hj, hji⟩
        rcases hji with ⟨⟩
        exact Or.inl ⟨hq, List.mem_range.mp hj⟩
      · rcases hji with ⟨⟩
        exact Or.inr ⟨rfl, hj⟩
    · rintro (⟨hq, hi'⟩ | ⟨rfl, hj⟩)
      · exact Or.inl ⟨(List.range targets.length).map (BenchEvent.runStarted p),
          ⟨p, hq, rfl⟩, List.mem_map.mpr ⟨i, List.mem_range.mpr hi', rfl⟩⟩
      · exact Or.inr ⟨i, hj, rfl⟩

/-- Closed witness for `c6_cancellation_halts`: the flag set between pass 1
and pass 2 of a 3-pass benchmark stops everything after pass 1. -/
theorem c6_cancellation_halts_witness :
    (bench .curl 3 [⟨"10.0.0.1", "a"⟩] (fun p _ => decide (1 ≤ p))
        (fun _ _ => ⟨some 0, 1, .file 1024⟩)).1 = BenchOutcome.terminated ∧
    BenchEvent.aggregated ∉ (bench .curl 3 [⟨"10.0.0.1", "a"⟩] (fun p _ => decide (1 ≤ p))
        (fun _ _ => ⟨some 0, 1, .file 1024⟩)).2 := by
  have h := c6_cancellation_halts .curl 3 [⟨"10.0.0.1", "a"⟩] (fun p _ => decide (1 ≤ p))
    (fun _ _ => ⟨some 0, 1, .file 1024⟩) 1 0 (by decide) (by decide) (by decide)
    (fun p i hp _ => by simp [Nat.lt_one_iff.mp hp]) (fun i hi => by omega)
  exact ⟨h.1, h.2.1⟩

/-- Counterexample to claim C5 as stated: a run whose elapsed time exactly
reaches the timeout (30 s elapsed, 30 s timeout) with a nonzero exit code is
classified as a failure, not as an expected timeout, because the code tests
`duration_seconds > timeout` strictly. -/
theorem c5_reach_timeout_counterexample :
    ((30 : Nat) : ℚ) ≤ (30 : ℚ) ∧
    classifyRun 30 30 (some 1) = RunState.failed 1 ∧
    classifyRun 30 30 (some 1) ≠ RunState.expectedTimeout := by
  refine ⟨by norm_num, by decide, by decide⟩

/-- Amended claim C5: a run is classified as an expected, successful timeout
exactly when its elapsed time strictly exceeds the timeout; otherwise exit
code 0 is OK, a nonzero exit code is a failure and death by signal is a
failure; and no per-run outcome aborts the benchmark — under every oracle
(including failing and signal-killed runs) every (pass, binding) run is
still started and the benchmark completes with aggregation. -/
theorem c5_timeout_classification (timeout : Nat) (d : ℚ) (code : Option Int)
    (program : Program) (passCount : Nat) (targets : List Target)
    (oracle : Nat → Nat → RunOutcome) :
    ((timeout : ℚ) < d → classifyRun timeout d code = .expectedTimeout) ∧
    (d ≤ (timeout : ℚ) → classifyRun timeout d (some 0) = .ok) ∧
    (d ≤ (timeout : ℚ) → ∀ c : Int, c ≠ 0 → classifyRun timeout d (some c) = .failed c) ∧
    (d ≤ (timeout : ℚ) → classifyRun timeout d none = .signalKilled) ∧
    (∃ calculated,
      (bench program passCount targets (fun _ _ => false) oracle).1
        = .completed calculated) ∧
    (∀ p i, p < passCount → i < targets.length →
      BenchEvent.runStarted p i
        ∈ (bench program passCount targets (fun _ _ => false) oracle).2) := by
  have hbench := bench_all_clear program passCount targets (fun _ _ => false)
    oracle (fun _ _ => rfl)
  refine ⟨?_, ?_, ?_, ?_, ?_, ?_⟩
  · intro h; simp [classifyRun, h]
  · intro h; simp [classifyRun, not_lt.mpr h]
  · intro h c hc; simp [classifyRun, not_lt.mpr h, hc]
  · intro h; simp [classifyRun, not_lt.mpr h]
  · exact ⟨_, by rw [hbench]⟩
  · intro p i hp hi
    rw [hbench]
    simp only [List.mem_append, List.mem_flatten, List.mem_map, List.mem_range]
    exact Or.inl ⟨(List.range targets.length).map (BenchEvent.runStarted p),
      ⟨p, hp, rfl⟩, List.mem_map.mpr ⟨i, List.mem_range.mpr hi, rfl⟩⟩

/-- Closed witness for `c5_timeout_classification`. -/
theorem c5_timeout_classification_witness :
    classifyRun 30 (61 / 2) (some 1) = RunState.expectedTimeout ∧
    classifyRun 30 30 (some 0) = RunState.ok ∧
    classifyRun 30 30 (some 7) = RunState.failed 7 ∧
    classifyRun 30 30 none = RunState.signalKilled := by
  have h := c5_timeout_classification 30 (61 / 2) (some 1) .curl 1 [⟨"10.0.0.1", "a"⟩]
    (fun _ _ => ⟨some 0, 1, .file 0⟩)
  have h' := c5_timeout_classification 30 30 (some 0) .curl 1 [⟨"10.0.0.1", "a"⟩]
    (fun _ _ => ⟨some 0, 1, .file 0⟩)
  refine ⟨h.1 (by norm_num), h'.2.1 (by norm_num), ?_, h'.2.2.2.1 (by norm_num)⟩
  exact h'.2.2.1 (by norm_num) 7 (by norm_num)

/-- A zero-pass aggregation divides the zero sum by zero, giving NaN. -/
theorem calcResultF_zero_passes : calcResultF 0 [] = F64.nan := by
  simp [calcResultF, F64.div]

/-- Claim C10: a pass count of 0 flows through the benchmark (the
`passCount ≥ 1` precondition is nowhere enforced); aggregation then computes
`0.0 / 0` = NaN for every configured binding, and the final
`sort_by(partial_cmp().unwrap())` panics as soon as at least two bindings
are configured. -/
theorem c10_zero_passes_nan_rank (program : Program) (targets : List Target)
    (termAt : Nat → Nat → Bool) (oracle : Nat → Nat → RunOutcome)
    (h2 : 2 ≤ targets.length) :
    bench program 0 targets termAt oracle
      = (.completed ((List.range targets.length).map fun i =>
          (targets.getD i ⟨"", ""⟩, F64.nan)), [.aggregated]) ∧
    (∀ pr ∈ (List.range targets.length).map fun i =>
        (targets.getD i ⟨"", ""⟩, F64.nan), (pr : Target × F64).2 = F64.nan) ∧
    rankPanics (((List.range targets.length).map fun i =>
        (targets.getD i ⟨"", ""⟩, F64.nan)).map Prod.snd) = true := by
  refine ⟨?_, ?_, ?_⟩
  · simp [bench, outerLoop, aggregate, calcResultF_zero_passes]
  · intro pr hpr
    rcases List.mem_map.mp hpr with ⟨i, _, rfl⟩
    rfl
  · simp only [rankPanics, Bool.and_eq_true, decide_eq_true_eq, List.any_eq_true]
    constructor
    · simpa using h2
    · refine ⟨F64.nan, ?_, rfl⟩
      have h0 : 0 ∈ List.range targets.length := List.mem_range.mpr (by omega)
      exact List.mem_map.mpr ⟨(targets.getD 0 ⟨"", ""⟩, F64.nan),
        List.mem_map.mpr ⟨0, h0, rfl⟩, rfl⟩

/-- Closed witness for `c10_zero_passes_nan_rank`. -/
theorem c10_zero_passes_nan_rank_witness :
    bench .curl 0 [⟨"10.0.0.1", "a"⟩, ⟨"10.0.0.2", "b"⟩] (fun _ _ => false)
        (fun _ _ => ⟨some 0, 1, .file 0⟩)
      = (.completed [(⟨"10.0.0.1", "a"⟩, F64.nan), (⟨"10.0.0.2", "b"⟩, F64.nan)],
         [.aggregated]) ∧
    rankPanics [F64.nan, F64.nan] = true := by
  have h := c10_zero_passes_nan_rank .curl [⟨"10.0.0.1", "a"⟩, ⟨"10.0.0.2", "b"⟩]
    (fun _ _ => false) (fun _ _ => ⟨some 0, 1, .file 0⟩) (by norm_num)
  refine ⟨?_, by decide⟩
  rw [h.1]
  norm_num [List.range_succ]

/-- Folding `F64.add` over exact numbers is exact rational summation. -/
theorem foldl_add_num (xs : List ℚ) : ∀ a : ℚ,
    (xs.map F64.num).foldl F64.add (.num a) = .num (a + xs.sum) := by
  induction xs with
  | nil => intro a; simp
  | cons x rest ih =>
    intro a
    simp only [List.map_cons, List.foldl_cons, F64.add, List.sum_cons]
    rw [ih]
    ring_nf

/-- Folding `F64.fmin` over exact numbers is the exact rational minimum
fold. -/
theorem foldl_fmin_num (xs : List ℚ) : ∀ a : ℚ,
    (xs.map F64.num).foldl F64.fmin (.num a) = .num (xs.foldl min a) := by
  induction xs with
  | nil => intro a; simp
  | cons x rest ih =>
    intro a
    simp only [List.map_cons, List.foldl_cons, F64.fmin]
    rw [ih]

/-- Folding `F64.fmax` over exact numbers is the exact rational maximum
fold. -/
theorem foldl_fmax_num (xs : List ℚ) : ∀ a : ℚ,
    (xs.map F64.num).foldl F64.fmax (.num a) = .num (xs.foldl max a) := by
  induction xs with
  | nil => intro a; simp
  | cons x rest ih =>
    intro a
    simp only [List.map_cons, List.foldl_cons, F64.fmax]
    rw [ih]

/-- Claim C2: with `passCount = n ≥ 3` samples the aggregated score is the
trimmed mean `(sum - min - max) / (n - 2)` (the `f64::MAX` / `f64::MIN`
seeds of the folds are absorbed because every finite double is bounded by
them; the bound hypotheses state this for the head, which suffices), with
`n < 3` it is the plain mean, and the two specification examples evaluate
accordingly. -/
theorem c2_trimmed_mean_aggregation (x : ℚ) (xs : List ℚ)
    (hub : x ≤ f64MAX) (hlb : -f64MAX ≤ x) :
    (3 ≤ (x :: xs).length →
      calcResultF (x :: xs).length ((x :: xs).map F64.num)
        = F64.num (((x :: xs).sum - sampleMin (x :: xs) - sampleMax (x :: xs))
            / (((x :: xs).length : ℚ) - 2))) ∧
    ((x :: xs).length < 3 →
      calcResultF (x :: xs).length ((x :: xs).map F64.num)
        = F64.num ((x :: xs).sum / (((x :: xs).length : Nat) : ℚ))) ∧
    calcResultF 5 ([10, 20, 30, 40, 50].map F64.num) = F64.num 30 ∧
    calcResultF 2 ([10, 20].map F64.num) = F64.num 15 := by
  have hsum : ((x :: xs).map F64.num).foldl F64.add (.num 0) = .num ((x :: xs).sum) := by
    rw [foldl_add_num]; ring_nf
  have hmin : ((x :: xs).map F64.num).foldl F64.fmin (.num f64MAX)
      = .num (sampleMin (x :: xs)) := by
    rw [foldl_fmin_num]
    simp only [List.foldl_cons, sampleMin, min_eq_right hub]
  have hmax : ((x :: xs).map F64.num).foldl F64.fmax (.num (-f64MAX))
      = .num (sampleMax (x :: xs)) := by
    rw [foldl_fmax_num]
    simp only [List.foldl_cons, sampleMax, max_eq_right hlb]
  refine ⟨?_, ?_, ?_, ?_⟩
  · intro h3
    have hlen : (2 : ℚ) ≤ ((x :: xs).length : ℚ) := by exact_mod_cast Nat.le_of_succ_le h3
    have hne : (((x :: xs).length - 2 : Nat) : ℚ) ≠ 0 :=
      Nat.cast_ne_zero.mpr (by omega)
    simp only [calcResultF, hsum, hmin, hmax, if_pos h3, F64.add, F64.sub, F64.div,
      if_neg hne]
    have hcast : (((x :: xs).length - 2 : Nat) : ℚ) = (((x :: xs).length : Nat) : ℚ) - 2 := by
      have h2 : 2 ≤ (x :: xs).length := by omega
      push_cast [h2]
      ring
    rw [hcast]
    ring_nf
  · intro hlt
    have hne : (((x :: xs).length : Nat) : ℚ) ≠ 0 :=
      Nat.cast_ne_zero.mpr (by simp)
    simp only [calcResultF, hsum, if_neg (by omega : ¬3 ≤ (x :: xs).length), F64.div,
      if_neg hne]
  · norm_num [calcResultF, F64.add, F64.sub, F64.fmin, F64.fmax, F64.div, f64MAX,
      min_def, max_def]
  · norm_num [calcResultF, F64.add, F64.fmin, F64.fmax, F64.div, f64MAX]

/-- Closed witness for `c2_trimmed_mean_aggregation`. -/
theorem c2_trimmed_mean_aggregation_witness :
    calcResultF 5 ([10, 20, 30, 40, 50].map F64.num) = F64.num 30 :=
  (c2_trimmed_mean_aggregation 10 [20, 30, 40, 50] (by norm_num [f64MAX])
    (by norm_num [f64MAX])).2.2.1

/-- Claim C9: for the clone-style kind the argument vector is exactly
`["clone", "--bare", upstream, scratchPath]` — the user-supplied extra
arguments are silently dropped (every other kind appends them as a suffix),
and a requested binding address reaches git only through the `LD_PRELOAD`
and `BIND_ADDRESS` environment variables, never as an argument. -/
theorem c9_git_args_omit_extra (extra : List String) (upstream tmp : String)
    (bind_ip : Option String) (addr binder : String) :
    get_program_args .git extra upstream tmp bind_ip
      = ["clone", "--bare", upstream, tmp] ∧
    (∀ program : Program, program ≠ .git →
      get_program_args program extra upstream tmp bind_ip
        = get_program_args program [] upstream tmp bind_ip ++ extra) ∧
    (get_child .git addr upstream tmp binder extra).argv
      = ["clone", "--bare", upstream, tmp] ∧
    (get_child .git addr upstream tmp binder extra).env
      = [("LD_PRELOAD", binder), ("BIND_ADDRESS", addr)] := by
  refine ⟨rfl, ?_, rfl, rfl⟩
  intro program hne
  cases program with
  | rsync => simp [get_program_args]
  | wget => simp [get_program_args]
  | curl => simp [get_program_args]
  | git => exact absurd rfl hne

/-- Closed witness for `c9_git_args_omit_extra`. -/
theorem c9_git_args_omit_extra_witness :
    get_program_args .git ["--depth", "1"] "git://u/r.git" "/tmp/d" (some "1.2.3.4")
      = ["clone", "--bare", "git://u/r.git", "/tmp/d"] ∧
    get_program_args .curl ["-L"] "http://u/f" "/tmp/f" (some "1.2.3.4")
      = get_program_args .curl [] "http://u/f" "/tmp/f" (some "1.2.3.4") ++ ["-L"] := by
  have h := c9_git_args_omit_extra ["--depth", "1"] "git://u/r.git" "/tmp/d"
    (some "1.2.3.4") "1.2.3.4" "/opt/libbinder.so"
  have h' := c9_git_args_omit_extra ["-L"] "http://u/f" "/tmp/f"
    (some "1.2.3.4") "1.2.3.4" "/opt/libbinder.so"
  exact ⟨h.1, h'.2.1 .curl (by decide)⟩

/-- Claim C1 names the intended measurement, but the two branches in
src/main.rs lines 317-321 are swapped: for git (whose scratch path is a
directory) the code reads the directory's own `metadata().len()` — its inode
size, not the recursive content size — while for the other kinds it calls
the recursive `fs_extra::dir::get_size` on the scratch file (which for a
plain file does equal the file's size, so those kinds behave as claimed).
Evaluated at a 4096-byte-inode scratch directory holding one
1000000-byte file: the code measures 4096 where the specification's
recursive size is 1000000, so a 2-second git run is recorded as 2 KB/s
instead of 488.28125 KB/s.  The bandwidth division itself
(`size / seconds / 1024`) matches the claim. -/
theorem c1_git_size_measurement_swapped :
    measuredSize .git (.dir 4096 [.file 1000000]) = 4096 ∧
    fsExtraGetSize (.dir 4096 [.file 1000000]) = 1000000 ∧
    specMeasuredSize .git (.dir 4096 [.file 1000000]) = 1000000 ∧
    measuredSize .git (.dir 4096 [.file 1000000])
      ≠ specMeasuredSize .git (.dir 4096 [.file 1000000]) ∧
    measuredSize .rsync (.file 123) = 123 ∧
    measuredSize .curl (.file 123) = 123 ∧
    measuredSize .wget (.file 123) = 123 ∧
    runBandwidth .git ⟨some 0, 2, .dir 4096 [.file 1000000]⟩ = F64.num 2 ∧
    F64.div (F64.div (.num ((fsExtraGetSize (.dir 4096 [.file 1000000]) : Nat) : ℚ))
        (.num 2)) (.num 1024)
      = F64.num (15625 / 32) := by
  refine ⟨by decide, by decide, by decide, by decide, by decide, by decide, by decide, ?_, ?_⟩
  · norm_num [runBandwidth, measuredSize, metadataLen, F64.div]
  · norm_num [fsExtraGetSize, fsExtraGetSizeList, F64.div]

/-- Every event emitted by the grace loop is a non-blocking poll. -/
theorem gracePoll_events (pollStatus : Nat → Option Int) :
    ∀ r k, ∀ e ∈ (gracePoll pollStatus k r).2, ∃ j, e = KillEvent.tryWaitPoll j := by
  intro r
  induction r with
  | zero => intro k e he; simp [gracePoll] at he
  | succ r ih =>
    intro k e he
    rcases hp : pollStatus k with _ | s
    · simp only [gracePoll, hp] at he
      rcases List.mem_cons.mp he with he | he
      · exact ⟨k, he⟩
      · exact ih (k + 1) e he
    · simp only [gracePoll, hp, List.mem_singleton] at he
      exact ⟨k, he⟩

/-- If every poll reports the child still running, the grace loop makes all
its polls and gives up. -/
theorem gracePoll_all_none (pollStatus : Nat → Option Int) :
    ∀ r k, (∀ j, k ≤ j → j < k + r → pollStatus j = none) →
      gracePoll pollStatus k r = (none, (List.range' k r).map KillEvent.tryWaitPoll) := by
  intro r
  induction r with
  | zero => intro k _; simp [gracePoll]
  | succ r ih =>
    intro k h
    have hk : pollStatus k = none := h k (Nat.le_refl k) (by omega)
    have hrest := ih (k + 1) fun j h1 h2 => h j (by omega) (by omega)
    simp [gracePoll, hk, hrest, List.range'_succ]

/-- If the first poll reporting an exit is poll `k₀`, the grace loop stops
there with that status after exactly the polls up to and including `k₀`. -/
theorem gracePoll_first_some (pollStatus : Nat → Option Int) :
    ∀ r k k₀ s, k ≤ k₀ → k₀ < k + r →
      (∀ j, k ≤ j → j < k₀ → pollStatus j = none) → pollStatus k₀ = some s →
      gracePoll pollStatus k r
        = (some s, (List.range' k (k₀ - k + 1)).map KillEvent.tryWaitPoll) := by
  intro r
  induction r with
  | zero => intro k k₀ s h1 h2; omega
  | succ r ih =>
    intro k k₀ s h1 h2 hnone hsome
    by_cases hk : k = k₀
    · subst hk
      simp [gracePoll, hsome, List.range'_succ]
    · have hkn : pollStatus k = none := hnone k (Nat.le_refl k) (by omega)
      have hrest := ih (k + 1) k₀ s (by omega) (by omega)
        (fun j ha hb => hnone j (by omega) hb) hsome
      have hlen : k₀ - k + 1 = (k₀ - (k + 1) + 1) + 1 := by omega
      rw [hlen]
      simp [gracePoll, hkn, hrest, List.range'_succ]

/-- Shape of the full termination trace: the tool-specific opening signal,
then the grace polls, then (only if no poll saw an exit) the SIGKILL
escalation with its blocking wait, then the non-blocking reap. -/
theorem kill_children_trace (program : Program) (pollStatus : Nat → Option Int) (w : Int) :
    (IPFormat.kill_children program pollStatus w).2
      = (if program = .git then [KillEvent.sigkillGroup] else [KillEvent.sigtermPid])
        ++ (gracePoll pollStatus 0 50).2
        ++ (if (gracePoll pollStatus 0 50).1 = none
            then [KillEvent.sigkillPid, .blockingWait, .reapNonblocking]
            else [KillEvent.reapNonblocking]) := by
  simp only [IPFormat.kill_children]
  rcases hg : (gracePoll pollStatus 0 50).1 with _ | s
  · by_cases hp : program = Program.git
    · simp [hg, hp]
    · simp [hg, hp]
  · by_cases hp : program = Program.git
    · simp [hg, hp]
    · simp [hg, hp]

/-- Claim C4: for every non-clone kind the trace opens with a SIGTERM to the
primary process only (never a group signal); for git it opens with an
immediate SIGKILL of the whole process group (never a SIGTERM); when all 50
grace polls see the child still alive, and only then, a SIGKILL of the
primary process followed by a blocking wait is appended; when some poll
sees the exit first, no SIGKILL of the primary process ever happens; and in
every case the trace ends with the non-blocking reap of terminated
descendants. -/
theorem c4_termination_policy (pollStatus : Nat → Option Int) (w : Int) :
    (∀ program : Program, program ≠ .git →
      ((IPFormat.kill_children program pollStatus w).2.head? = some .sigtermPid ∧
       KillEvent.sigkillGroup ∉ (IPFormat.kill_children program pollStatus w).2)) ∧
    ((IPFormat.kill_children .git pollStatus w).2.head? = some .sigkillGroup ∧
     KillEvent.sigtermPid ∉ (IPFormat.kill_children .git pollStatus w).2) ∧
    ((∀ k, k < 50 → pollStatus k = none) → ∀ program : Program,
      IPFormat.kill_children program pollStatus w
        = (w, (if program = .git then [KillEvent.sigkillGroup] else [KillEvent.sigtermPid])
            ++ (List.range 50).map KillEvent.tryWaitPoll
            ++ [.sigkillPid, .blockingWait, .reapNonblocking])) ∧
    (∀ k₀ s, k₀ < 50 → (∀ j, j < k₀ → pollStatus j = none) → pollStatus k₀ = some s →
      ∀ program : Program,
        IPFormat.kill_children program pollStatus w
          = (s, (if program = .git then [KillEvent.sigkillGroup] else [KillEvent.sigtermPid])
              ++ (List.range (k₀ + 1)).map KillEvent.tryWaitPoll
              ++ [.reapNonblocking]) ∧
        KillEvent.sigkillPid ∉ (IPFormat.kill_children program pollStatus w).2) ∧
    (∀ program : Program, ∃ pre,
      (IPFormat.kill_children program pollStatus w).2 = pre ++ [KillEvent.reapNonblocking]) := by
  have hev := gracePoll_events pollStatus 50 0
  refine ⟨?_, ?_, ?_, ?_, ?_⟩
  · intro program hne
    rw [kill_children_trace, if_neg hne]
    constructor
    · rfl
    · intro hmem
      rcases List.mem_append.mp hmem with h | h
      · rcases List.mem_append.mp h with h | h
        · simp at h
        · rcases hev _ h with ⟨j, hj⟩
          cases hj
      · rcases hg : (gracePoll pollStatus 0 50).1 with _ | s
        · rw [if_pos hg] at h; simp at h
        · rw [if_neg (by simp [hg])] at h; simp at h
  · rw [kill_children_trace, if_pos rfl]
    constructor
    · rfl
    · intro hmem
      rcases List.mem_append.mp hmem with h | h
      · rcases List.mem_append.mp h with h | h
        · simp at h
        · rcases hev _ h with ⟨j, hj⟩
          cases hj
      · rcases hg : (gracePoll pollStatus 0 50).1 with _ | s
        · rw [if_pos hg] at h; simp at h
        · rw [if_neg (by simp [hg])] at h; simp at h
  · intro hall program
    have hg := gracePoll_all_none pollStatus 50 0 fun j h1 h2 => hall j (by omega)
    simp only [IPFormat.kill_children, hg]
    by_cases hp : program = Program.git
    · simp [hp, List.range_eq_range']
    · simp [hp, List.range_eq_range']
  · intro k₀ s hk₀ hnone hsome program
    have hg := gracePoll_first_some pollStatus 50 0 k₀ s (Nat.zero_le k₀) (by omega)
      (fun j _ hb => hnone j hb) hsome
    constructor
    · simp only [IPFormat.kill_children, hg]
      by_cases hp : program = Program.git
      · simp [hp, List.range_eq_range']
      · simp [hp, List.range_eq_range']
    · rw [kill_children_trace]
      intro hmem
      rcases List.mem_append.mp hmem with h | h
      · rcases List.mem_append.mp h with h | h
        · by_cases hp : program = Program.git
          · rw [if_pos hp] at h; simp at h
          · rw [if_neg hp] at h; simp at h
        · rcases hev _ h with ⟨j, hj⟩
          cases hj
      · rw [if_neg (by simp [hg])] at h
        simp at h
  · intro program
    rw [kill_children_trace]
    rcases hg : (gracePoll pollStatus 0 50).1 with _ | s
    · refine ⟨(if program = Program.git then [KillEvent.sigkillGroup]
          else [KillEvent.sigtermPid]) ++ (gracePoll pollStatus 0 50).2
          ++ [KillEvent.sigkillPid, KillEvent.blockingWait], ?_⟩
      simp
    · refine ⟨(if program = Program.git then [KillEvent.sigkillGroup]
          else [KillEvent.sigtermPid]) ++ (gracePoll pollStatus 0 50).2, ?_⟩
      simp

/-- Closed witness for `c4_termination_policy`. -/
theorem c4_termination_policy_witness :
    IPFormat.kill_children .rsync (fun _ => none) 143
      = (143, [KillEvent.sigtermPid] ++ (List.range 50).map KillEvent.tryWaitPoll
          ++ [.sigkillPid, .blockingWait, .reapNonblocking]) ∧
    (IPFormat.kill_children .git (fun _ => none) 137).2.head?
      = some KillEvent.sigkillGroup := by
  constructor
  · have h := (c4_termination_policy (fun _ => none) 143).2.2.1 (fun _ _ => rfl) .rsync
    rw [h, if_neg (by decide)]
  · exact ((c4_termination_policy (fun _ => none) 137).2.1).1

/-- Claim C7: Isolated-Network termination first SIGKILLs and blocks on the
local supervising process, then asks the runtime to kill the container by
the same unique per-run name that `run` passed to `docker run --name`; only
when both succeeded does it return the forced-termination status
`128 + SIGKILL = 137`; a non-zero exit of the runtime's kill command trips
the `assert!`, aborting the program instead of being recorded as a per-run
failure. -/
theorem c7_docker_termination (seed target tmp image progName : String)
    (progArgs : List String) (killOk : Bool) :
    (DockerFormat.kill_children (DockerFormat.ctrName seed) killOk).1
      = [.sigkillChild, .blockingWaitChild, .dockerKill (DockerFormat.ctrName seed)] ∧
    DockerFormat.dockerRunArgs (DockerFormat.ctrName seed) target tmp image progName progArgs
      = ["run", "--name", DockerFormat.ctrName seed, "--rm", "--network", target, "-v",
         tmp ++ ":" ++ tmp, image, progName] ++ progArgs ∧
    (killOk = true →
      (DockerFormat.kill_children (DockerFormat.ctrName seed) killOk).2 = .ok 137) ∧
    (killOk = false →
      ∃ msg, (DockerFormat.kill_children (DockerFormat.ctrName seed) killOk).2
        = .error msg) := by
  refine ⟨rfl, rfl, ?_, ?_⟩
  · intro h
    simp [DockerFormat.kill_children, h]
  · intro h
    exact ⟨"assertion failed: could not kill docker container",
      by simp [DockerFormat.kill_children, h]⟩

/-- Closed witness for `c7_docker_termination`. -/
theorem c7_docker_termination_witness :
    (DockerFormat.kill_children (DockerFormat.ctrName "a1b2") true).2 = .ok 137 ∧
    (∃ msg, (DockerFormat.kill_children (DockerFormat.ctrName "a1b2") false).2
      = .error msg) := by
  exact ⟨(c7_docker_termination "a1b2" "net" "/tmp/f" "img" "curl" [] true).2.2.1 rfl,
    (c7_docker_termination "a1b2" "net" "/tmp/f" "img" "curl" [] false).2.2.2 rfl⟩

/-- Unfolding: a poll that finds the child exited returns at once. -/
theorem waitLoop_succ_exited (cfg : WaitCfg) (fuel now delay : Nat)
    (h : cfg.exitTime ≤ now) :
    waitLoop cfg (fuel + 1) now delay
      = (.naturallyExited cfg.exitStatus now, [.polledExited now]) := by
  simp [waitLoop, h]

/-- Unfolding: the child still runs and the cancellation flag is set. -/
theorem waitLoop_succ_term (cfg : WaitCfg) (fuel now delay : Nat)
    (h1 : ¬cfg.exitTime ≤ now) (h2 : cfg.termAt now = true) :
    waitLoop cfg (fuel + 1) now delay
      = (.forcefullyTerminated now, [.polledRunning now, .killed now]) := by
  simp [waitLoop, h1, h2]

/-- Unfolding: the child still runs, no cancellation, deadline passed. -/
theorem waitLoop_succ_deadline (cfg : WaitCfg) (fuel now delay : Nat)
    (h1 : ¬cfg.exitTime ≤ now) (h2 : cfg.termAt now = false) (h3 : cfg.deadline ≤ now) :
    waitLoop cfg (fuel + 1) now delay
      = (.forcefullyTerminated now, [.polledRunning now, .killed now]) := by
  simp [waitLoop, h1, h2, h3]

/-- Unfolding: the child still runs and nothing fired, so the loop sleeps
`min delay remaining` and doubles the backoff up to 100 ms. -/
theorem waitLoop_succ_sleep (cfg : WaitCfg) (fuel now delay : Nat)
    (h1 : ¬cfg.exitTime ≤ now) (h2 : cfg.termAt now = false) (h3 : ¬cfg.deadline ≤ now) :
    waitLoop cfg (fuel + 1) now delay
      = ((waitLoop cfg fuel (now + min delay (cfg.deadline - now)) (min (delay * 2) 100)).1,
         .polledRunning now ::
           (waitLoop cfg fuel (now + min delay (cfg.deadline - now))
             (min (delay * 2) 100)).2) := by
  simp [waitLoop, h1, h2, h3]

/-- Every trace of the bounded-wait loop is kill-guarded: the termination
routine is only ever invoked directly after a non-blocking poll, at the same
instant, reported the child still running. -/
theorem waitLoop_killsGuarded (cfg : WaitCfg) :
    ∀ fuel now delay, killsGuarded (waitLoop cfg fuel now delay).2 := by
  intro fuel
  induction fuel with
  | zero =>
    intro now delay
    exact ⟨fun t => by simp [waitLoop], fun i t h => by simp [waitLoop] at h⟩
  | succ fuel ih =>
    intro now delay
    by_cases hex : cfg.exitTime ≤ now
    · rw [waitLoop_succ_exited cfg fuel now delay hex]
      refine ⟨fun t => by simp, fun i t h => ?_⟩
      cases i <;> simp at h
    · rcases htm : cfg.termAt now with _ | _
      · by_cases hdl : cfg.deadline ≤ now
        · rw [waitLoop_succ_deadline cfg fuel now delay hex htm hdl]
          refine ⟨fun t => by simp, fun i t h => ?_⟩
          match i with
          | 0 =>
            simp only [List.getElem?_cons_succ, List.getElem?_cons_zero,
              Option.some.injEq] at h
            injection h with h'
            subst h'
            simp
          | j + 1 => simp at h
        · rw [waitLoop_succ_sleep cfg fuel now delay hex htm hdl]
          obtain ⟨ih1, ih2⟩ := ih (now + min delay (cfg.deadline - now)) (min (delay * 2) 100)
          refine ⟨fun t => by simp, fun i t h => ?_⟩
          rw [List.getElem?_cons_succ] at h
          match i with
          | 0 =>
            rw [List.head?_eq_getElem?] at ih1
            exact absurd h (ih1 t)
          | j + 1 =>
            rw [List.getElem?_cons_succ]
            exact ih2 j t h
      · rw [waitLoop_succ_term cfg fuel now delay hex htm]
        refine ⟨fun t => by simp, fun i t h => ?_⟩
        match i with
        | 0 =>
          simp only [List.getElem?_cons_succ, List.getElem?_cons_zero,
            Option.some.injEq] at h
          injection h with h'
          subst h'
          simp
        | j + 1 => simp at h

/-- If the child exits naturally before the deadline and the cancellation
flag stays clear until then, the bounded wait returns the natural exit
status: the exit is observed by the first poll at or after `exitTime`, which
lands within one backoff interval (at most 100 ms) of it, and no
termination is ever invoked. -/
theorem waitLoop_natural (cfg : WaitCfg) (hexit : cfg.exitTime < cfg.deadline)
    (hterm : ∀ n, n < cfg.exitTime → cfg.termAt n = false) :
    ∀ fuel now delay, 1 ≤ delay → delay ≤ 100 → now ≤ cfg.deadline →
      now < cfg.exitTime + 100 → cfg.deadline + 2 ≤ fuel + now →
      ∃ e, (waitLoop cfg fuel now delay).1 = .naturallyExited cfg.exitStatus e ∧
        cfg.exitTime ≤ e ∧ e < cfg.exitTime + 100 ∧ e ≤ cfg.deadline ∧
        ∀ t, WaitEvent.killed t ∉ (waitLoop cfg fuel now delay).2 := by
  intro fuel
  induction fuel with
  | zero => intro now delay h1 h2 h3 h4 h5; omega
  | succ fuel ih =>
    intro now delay h1 h2 h3 h4 h5
    by_cases hex : cfg.exitTime ≤ now
    · rw [waitLoop_succ_exited cfg fuel now delay hex]
      exact ⟨now, rfl, hex, h4, h3, fun t => by simp⟩
    · have hlt : now < cfg.exitTime := by omega
      have htm : cfg.termAt now = false := hterm now hlt
      have hdl : ¬cfg.deadline ≤ now := by omega
      have hs1 : 1 ≤ min delay (cfg.deadline - now) := by omega
      have hs2 : min delay (cfg.deadline - now) ≤ delay := Nat.min_le_left _ _
      obtain ⟨e, he1, he2, he3, he4, he5⟩ :=
        ih (now + min delay (cfg.deadline - now)) (min (delay * 2) 100)
          (by omega) (by omega) (by omega) (by omega) (by omega)
      rw [waitLoop_succ_sleep cfg fuel now delay hex htm hdl]
      refine ⟨e, he1, he2, he3, he4, fun t => ?_⟩
      intro hmem
      rcases List.mem_cons.mp hmem with h | h
      · cases h
      · exact he5 t h

/-- Claim C3: (a) in every execution of the bounded-wait loop, the
termination routine runs only immediately after a non-blocking poll, at the
same elapsed instant, found the child still running; (b) consequently a
child that exits at time `t` before the deadline, with the cancellation flag
clear until then, yields the natural exit status with elapsed time in
`[t, t + 100)` milliseconds (one backoff interval of slack) and not past the
deadline, and the termination routine is never invoked. -/
theorem c3_wait_timeout_soundness :
    (∀ (cfg : WaitCfg) (fuel now delay : Nat),
      killsGuarded (waitLoop cfg fuel now delay).2) ∧
    (∀ (cfg : WaitCfg) (fuel : Nat),
      cfg.exitTime < cfg.deadline →
      (∀ n, n < cfg.exitTime → cfg.termAt n = false) →
      cfg.deadline + 2 ≤ fuel →
      ∃ e, (wait_timeout cfg fuel).1 = .naturallyExited cfg.exitStatus e ∧
        cfg.exitTime ≤ e ∧ e < cfg.exitTime + 100 ∧ e ≤ cfg.deadline ∧
        ∀ t, WaitEvent.killed t ∉ (wait_timeout cfg fuel).2) := by
  refine ⟨waitLoop_killsGuarded, fun cfg fuel h1 h2 h3 => ?_⟩
  exact waitLoop_natural cfg h1 h2 fuel 0 1 (by omega) (by omega) (by omega) (by omega)
    (by omega)

/-- Closed witness for `c3_wait_timeout_soundness`. -/
theorem c3_wait_timeout_soundness_witness :
    ∃ e, (wait_timeout ⟨3, 0, fun _ => false, 10⟩ 12).1
        = WaitOutcome.naturallyExited 0 e ∧
      3 ≤ e ∧ e < 3 + 100 ∧ e ≤ 10 ∧
      ∀ t, WaitEvent.killed t ∉ (wait_timeout ⟨3, 0, fun _ => false, 10⟩ 12).2 :=
  c3_wait_timeout_soundness.2 ⟨3, 0, fun _ => false, 10⟩ 12 (by norm_num)
    (fun n _ => rfl) (by norm_num)
